import Mathlib

/-!
Verification of the PF transmitter core (LEGO Power Functions infrared
remote control): a shallow embedding of the command encoder, datagram
pulse generator, toggle-bit state machine, task scheduler and auto-repeat
manager, together with proofs of the specified properties.

Source: `src/main.ts` (namespace `pfTransmitter`).  Pure functions of the
source become Lean functions; the mutable module state (`toggleByChannel`,
`tasks`, `schedulerIsWorking`, `intervalId`) becomes explicit state
passing, and the cooperative scheduling is modelled as a step relation at
yield-point granularity.  JavaScript numbers in this module are small
non-negative integers, embedded as `Nat` (with `Int` where a subtraction
may go negative, namely the calibrated pulse spaces).
-/

namespace pfTransmitter

/-! ## Datagram encoder (`InfraredLed.sendCommand`) -/

/-- From `InfraredLed.sendCommand` (src/main.ts lines 191-198): the 16-bit
datagram handed to `sendDatagram` for a 12-bit command value:
`nibble1 = command >>> 8`, `nibble2 = (command & 0xF0) >>> 4`,
`nibble3 = command & 0xF`, `lrc = 15 ^ nibble1 ^ nibble2 ^ nibble3`,
result `(command << 4) | lrc`. -/
def sendCommand (command : Nat) : Nat :=
  let nibble1 := command >>> 8
  let nibble2 := (command &&& 0b000011110000) >>> 4
  let nibble3 := command &&& 0b000000001111
  let lrc := 15 ^^^ nibble1 ^^^ nibble2 ^^^ nibble3
  (command <<< 4) ||| lrc

/-- Low four bits of `(v <<< 4) ||| l` are `l` when `l < 16`. -/
theorem lorShiftLeft_mod (v l : Nat) (h : l < 16) : ((v <<< 4) ||| l) % 16 = l := by
  have h15 : ∀ x : Nat, x &&& 15 = x % 16 := fun x => Nat.and_pow_two_sub_one_eq_mod x 4
  rw [← h15]
  apply Nat.eq_of_testBit_eq
  intro i
  simp only [Nat.testBit_and, Nat.testBit_or, Nat.testBit_shiftLeft]
  rcases Nat.lt_or_ge i 4 with hi | hi
  · have h15b : (15 : Nat).testBit i = true := by
      interval_cases i <;> decide
    simp [h15b, Nat.not_le.mpr hi]
  · have h15b : (15 : Nat).testBit i = false :=
      Nat.testBit_lt_two_pow (by calc (15:Nat) < 2^4 := by norm_num
                                    _ ≤ 2^i := Nat.pow_le_pow_right (by norm_num) hi)
    have hlb : l.testBit i = false :=
      Nat.testBit_lt_two_pow (by calc l < 16 := h
                                    _ ≤ 2^i := by
                                      have h16 : (16:Nat) = 2^4 := by norm_num
                                      rw [h16]; exact Nat.pow_le_pow_right (by norm_num) hi)
    simp [h15b, hlb]

/-- High bits of `(v <<< 4) ||| l` are `v` when `l < 16`. -/
theorem lorShiftLeft_shiftRight (v l : Nat) (h : l < 16) : ((v <<< 4) ||| l) >>> 4 = v := by
  apply Nat.eq_of_testBit_eq
  intro i
  simp only [Nat.testBit_shiftRight, Nat.testBit_or, Nat.testBit_shiftLeft]
  have hlb : l.testBit (i + 4) = false :=
    Nat.testBit_lt_two_pow (by calc l < 16 := h
                                  _ ≤ 2^(i+4) := by
                                    have h16 : (16:Nat) = 2^4 := by norm_num
                                    rw [h16]; exact Nat.pow_le_pow_right (by norm_num) (by omega))
  simp [hlb, Nat.add_sub_cancel_left, show 4 + i ≥ 4 by omega, Nat.add_comm 4 i]

/-- Masking the middle nibble then shifting agrees with shifting then masking. -/
theorem and240_shiftRight (v : Nat) : (v &&& 240) >>> 4 = (v >>> 4) &&& 15 := by
  apply Nat.eq_of_testBit_eq
  intro i
  simp only [Nat.testBit_shiftRight, Nat.testBit_and]
  rcases Nat.lt_or_ge i 4 with hi | hi
  · have h240 : (240 : Nat).testBit (4 + i) = true := by
      interval_cases i <;> decide
    have h15b : (15 : Nat).testBit i = true := by
      interval_cases i <;> decide
    simp [h240, h15b]
  · have h240 : (240 : Nat).testBit (4 + i) = false :=
      Nat.testBit_lt_two_pow (by calc (240:Nat) < 2^8 := by norm_num
                                    _ ≤ 2^(4+i) := Nat.pow_le_pow_right (by norm_num) (by omega))
    have h15b : (15 : Nat).testBit i = false :=
      Nat.testBit_lt_two_pow (by calc (15:Nat) < 2^4 := by norm_num
                                    _ ≤ 2^i := Nat.pow_le_pow_right (by norm_num) hi)
    simp [h240, h15b]

/-- C1: for every 12-bit value `v`, `sendCommand` builds the datagram
`(v << 4) | lrc` with `lrc = 15 XOR n1 XOR n2 XOR n3` for the three
nibbles `n1 = bits 11..8`, `n2 = bits 7..4`, `n3 = bits 3..0` of `v`;
hence the low 4 bits of the transmitted datagram equal that checksum and
the upper 12 bits are `v` itself. -/
theorem sendCommand_datagram (v : Nat) (hv : v < 4096) :
    sendCommand v =
      (v <<< 4) ||| (15 ^^^ ((v >>> 8) &&& 15) ^^^ ((v >>> 4) &&& 15) ^^^ (v &&& 15)) ∧
    sendCommand v % 16 =
      15 ^^^ ((v >>> 8) &&& 15) ^^^ ((v >>> 4) &&& 15) ^^^ (v &&& 15) ∧
    sendCommand v >>> 4 = v := by
  have hn1lt : v >>> 8 < 16 := by
    rw [Nat.shiftRight_eq_div_pow]
    omega
  have hn1 : v >>> 8 = (v >>> 8) &&& 15 := by
    rw [Nat.and_pow_two_sub_one_eq_mod _ 4]
    omega
  have hlrc :
      15 ^^^ ((v >>> 8) &&& 15) ^^^ ((v >>> 4) &&& 15) ^^^ (v &&& 15) < 16 := by
    have h4 : (16 : Nat) = 2 ^ 4 := by norm_num
    rw [h4]
    apply Nat.xor_lt_two_pow
    apply Nat.xor_lt_two_pow
    apply Nat.xor_lt_two_pow
    · norm_num
    · rw [← h4, ← hn1]; exact hn1lt
    · exact Nat.and_lt_two_pow _ (by norm_num)
    · exact Nat.and_lt_two_pow _ (by norm_num)
  have heq : sendCommand v =
      (v <<< 4) ||| (15 ^^^ ((v >>> 8) &&& 15) ^^^ ((v >>> 4) &&& 15) ^^^ (v &&& 15)) := by
    simp only [sendCommand]
    rw [← hn1, and240_shiftRight]
  refine ⟨heq, ?_, ?_⟩
  · rw [heq]; exact lorShiftLeft_mod _ _ hlrc
  · rw [heq]; exact lorShiftLeft_shiftRight _ _ hlrc

/-- Witness for C1 at the concrete command value 1447 = 0x5A7. -/
theorem sendCommand_datagram_witness :
    (1447 : Nat) < 4096 ∧
    (sendCommand 1447 =
      (1447 <<< 4) |||
        (15 ^^^ ((1447 >>> 8) &&& 15) ^^^ ((1447 >>> 4) &&& 15) ^^^ (1447 &&& 15)) ∧
    sendCommand 1447 % 16 =
      15 ^^^ ((1447 >>> 8) &&& 15) ^^^ ((1447 >>> 4) &&& 15) ^^^ (1447 &&& 15) ∧
    sendCommand 1447 >>> 4 = 1447) :=
  ⟨by decide, sendCommand_datagram 1447 (by decide)⟩

/-! ## Pulse emitter (`InfraredLed.transmitBit`, constructor calibration,
`InfraredLed.sendDatagram`) -/

/-- One physical pulse: output driven high for `mark` µs then low for
`space` µs (the two `control.waitMicros` amounts of `transmitBit`).
`Int` because the calibration correction is subtracted from the spaces. -/
structure Pulse where
  mark : Int
  space : Int
deriving DecidableEq, Repr

/-- From `InfraredLed.transmitBit` (lines 183-188). -/
def transmitBit (highMicros lowMicros : Int) : Pulse :=
  ⟨highMicros, lowMicros⟩

/-- From the `InfraredLed` constructor (lines 168-177): after 32 warm-up
`transmitBit(1, 1)` calls taking `elapsed` µs of wall-clock time,
`waitCorrection = Math.idiv(end - start - runs * 2, runs * 2)` with
`runs = 32`; `Math.idiv` truncates toward zero, embedded as `Int.tdiv`. -/
def waitCorrection (elapsed : Int) : Int :=
  Int.tdiv (elapsed - 32 * 2) (32 * 2)

/-- From `InfraredLed.sendDatagram` (lines 200-227): one start pulse, the
16 bits of `datagram` from bit 15 down to bit 0 (mark + low space for a 0
bit, mark + high space for a 1 bit), one closing start pulse.  `wc` is the
`waitCorrection` field stored by the constructor. -/
def sendDatagram (wc : Int) (datagram : Nat) : List Pulse :=
  let PF_MARK_BIT : Int := 158
  let PF_LOW_BIT : Int := 421 - PF_MARK_BIT - wc
  let PF_HIGH_BIT : Int := 711 - PF_MARK_BIT - wc
  let PF_START_BIT : Int := 1184 - PF_MARK_BIT - wc
  let dataPulses := (List.range 16).map (fun k =>
    let i := 15 - k
    let bit := if datagram &&& (1 <<< i) = 0 then 0 else 1
    if bit = 0 then transmitBit PF_MARK_BIT PF_LOW_BIT
    else transmitBit PF_MARK_BIT PF_HIGH_BIT)
  [transmitBit PF_MARK_BIT PF_START_BIT] ++ dataPulses ++ [transmitBit PF_MARK_BIT PF_START_BIT]

/-- `x &&& (1 <<< i) = 0` is exactly "bit `i` of `x` is clear". -/
theorem and_one_shiftLeft_eq_zero (d i : Nat) :
    (d &&& (1 <<< i) = 0) ↔ d.testBit i = false := by
  rw [Nat.one_shiftLeft, Nat.and_two_pow]
  rcases h : d.testBit i <;> simp [h]

/-- Structural form of `sendDatagram`, with the bit test expressed via
`Nat.testBit`. -/
theorem sendDatagram_eq (wc : Int) (d : Nat) :
    sendDatagram wc d =
      ⟨158, 1184 - 158 - wc⟩ ::
        ((List.range 16).map fun k =>
          if d.testBit (15 - k) then (⟨158, 711 - 158 - wc⟩ : Pulse)
          else ⟨158, 421 - 158 - wc⟩) ++ [⟨158, 1184 - 158 - wc⟩] := by
  simp only [sendDatagram, transmitBit, List.singleton_append]
  rw [List.cons_append]
  congr 1
  congr 1
  apply List.map_congr_left
  intro k _
  rcases h : d.testBit (15 - k) with hf | ht
  · have : d &&& (1 <<< (15 - k)) = 0 := (and_one_shiftLeft_eq_zero d (15 - k)).mpr h
    simp [this]
  · have : ¬ (d &&& (1 <<< (15 - k)) = 0) := by
      rw [and_one_shiftLeft_eq_zero d (15 - k)]
      simp [h]
    simp [this]

/-- Index-by-index description of the pulse train of `sendDatagram`. -/
theorem sendDatagram_pulses (wc : Int) (d : Nat) :
    (sendDatagram wc d).length = 18 ∧
    (sendDatagram wc d)[0]? = some ⟨158, 1184 - 158 - wc⟩ ∧
    (sendDatagram wc d)[17]? = some ⟨158, 1184 - 158 - wc⟩ ∧
    (∀ k, k < 16 →
      (sendDatagram wc d)[k + 1]? =
        some (if d.testBit (15 - k) then (⟨158, 711 - 158 - wc⟩ : Pulse)
              else ⟨158, 421 - 158 - wc⟩)) := by
  rw [sendDatagram_eq]
  refine ⟨by simp, by simp, ?_, ?_⟩
  · have h17 : (17 : Nat) = 16 + 1 := by norm_num
    simp only [List.cons_append, h17, List.getElem?_cons_succ]
    rw [List.getElem?_append_right (by simp)]
    simp
  · intro k hk
    simp only [List.cons_append, List.getElem?_cons_succ]
    rw [List.getElem?_append_left (by simpa using hk)]
    simp [List.getElem?_map, List.getElem?_range, hk]

/-- Every pulse of `sendDatagram` has mark 158 µs. -/
theorem sendDatagram_mark (wc : Int) (d : Nat) :
    ∀ p ∈ sendDatagram wc d, p.mark = 158 := by
  intro p hp
  rw [sendDatagram_eq] at hp
  simp only [List.cons_append, List.mem_cons, List.mem_append, List.mem_map,
    List.mem_singleton] at hp
  rcases hp with rfl | ⟨⟨k, -, rfl⟩ | rfl | h⟩
  · rfl
  · split <;> rfl
  · rfl
  · simp at h

/-- C2: for every 16-bit datagram, `sendDatagram` emits exactly 18 pulses:
one start pulse, then the 16 data bits most-significant-bit first (a 0 bit
as mark + low space, a 1 bit as mark + high space), then one closing stop
pulse identical to the start pulse. -/
theorem sendDatagram_frame (wc : Int) (d : Nat) (hd : d < 65536) :
    (sendDatagram wc d).length = 18 ∧
    (sendDatagram wc d)[0]? = some ⟨158, 1184 - 158 - wc⟩ ∧
    (sendDatagram wc d)[17]? = (sendDatagram wc d)[0]? ∧
    (∀ k, k < 16 →
      (sendDatagram wc d)[k + 1]? =
        some (if d.testBit (15 - k) then (⟨158, 711 - 158 - wc⟩ : Pulse)
              else ⟨158, 421 - 158 - wc⟩)) := by
  obtain ⟨h1, h2, h3, h4⟩ := sendDatagram_pulses wc d
  exact ⟨h1, h2, by rw [h2, h3], h4⟩

/-- Witness for C2 at `wc = 3`, `d = 0xABCD`. -/
theorem sendDatagram_frame_witness :
    (43981 : Nat) < 65536 ∧
    ((sendDatagram 3 43981).length = 18 ∧
    (sendDatagram 3 43981)[0]? = some ⟨158, 1184 - 158 - 3⟩ ∧
    (sendDatagram 3 43981)[17]? = (sendDatagram 3 43981)[0]? ∧
    (∀ k, k < 16 →
      (sendDatagram 3 43981)[k + 1]? =
        some (if (43981 : Nat).testBit (15 - k) then (⟨158, 711 - 158 - 3⟩ : Pulse)
              else ⟨158, 421 - 158 - 3⟩))) :=
  ⟨by decide, sendDatagram_frame 3 43981 (by decide)⟩

/-- C8: the constructor's calibration sets
`waitCorrection = (elapsed − 32·2·1) / (32·2)` rounded toward zero
(`Int.tdiv`), where `elapsed` is the measured wall-clock time of the 32
warm-up `transmitBit(1, 1)` calls; and with that correction stored, every
pulse of `sendDatagram` uses mark = 158 µs and space = T − 158 −
waitCorrection, with T = 421 for a 0 data bit, 711 for a 1 data bit, and
1184 for the start and stop pulses. -/
theorem calibration_pulse_timings (elapsed : Int) (d : Nat) :
    waitCorrection elapsed = Int.tdiv (elapsed - 32 * 2 * 1) (32 * 2) ∧
    (∀ p ∈ sendDatagram (waitCorrection elapsed) d, p.mark = 158) ∧
    (sendDatagram (waitCorrection elapsed) d)[0]? =
      some ⟨158, 1184 - 158 - waitCorrection elapsed⟩ ∧
    (sendDatagram (waitCorrection elapsed) d)[17]? =
      some ⟨158, 1184 - 158 - waitCorrection elapsed⟩ ∧
    ∀ k, k < 16 →
      (sendDatagram (waitCorrection elapsed) d)[k + 1]? =
        some (if d.testBit (15 - k)
              then (⟨158, 711 - 158 - waitCorrection elapsed⟩ : Pulse)
              else ⟨158, 421 - 158 - waitCorrection elapsed⟩) := by
  obtain ⟨-, h2, h3, h4⟩ := sendDatagram_pulses (waitCorrection elapsed) d
  exact ⟨by norm_num [waitCorrection], sendDatagram_mark _ d, h2, h3, h4⟩

/-- Witness for C8 at `elapsed = 100`, `d = 43981`; the inner bound
`k < 16` is discharged at `k = 3`. -/
theorem calibration_pulse_timings_witness :
    (3 : Nat) < 16 ∧
    (sendDatagram (waitCorrection 100) 43981)[3 + 1]? =
      some (if (43981 : Nat).testBit (15 - 3)
            then (⟨158, 711 - 158 - waitCorrection 100⟩ : Pulse)
            else ⟨158, 421 - 158 - waitCorrection 100⟩) :=
  ⟨by decide, (calibration_pulse_timings 100 43981).2.2.2.2 3 (by decide)⟩

/-! ## Toggle state (`toggleByChannel`, `addToggle`) -/

/-- The channel extracted by `addToggle`: bits 8-9 of the command. -/
def channelOf (command : Nat) : Nat :=
  (0b001100000000 &&& command) >>> 8

/-- Initial module state `toggleByChannel = [1, 1, 1, 1]` (line 148). -/
def initToggles : List Nat := [1, 1, 1, 1]

/-- From `addToggle` (lines 244-249): flip the channel's stored toggle
first, then return `(toggle << 11) | command` using the flipped value;
result is (new `toggleByChannel` state, returned raw value). -/
def addToggle (st : List Nat) (command : Nat) : List Nat × Nat :=
  let channel := channelOf command
  let t := 1 - st.getD channel 0
  (st.set channel t, (t <<< 11) ||| command)

/-- Iterating `addToggle` over successive commands: final state and the
list of returned (toggled) raw values, in order. -/
def runToggles (st : List Nat) (cmds : List Nat) : List Nat × List Nat :=
  match cmds with
  | [] => (st, [])
  | c :: rest =>
      let p := addToggle st c
      let q := runToggles p.1 rest
      (q.1, p.2 :: q.2)

/-- The channel index extracted by `addToggle` is always below 4. -/
theorem channelOf_lt (command : Nat) : channelOf command < 4 := by
  have h : 0b001100000000 &&& command ≤ 0b001100000000 := Nat.and_le_left
  simp only [channelOf, Nat.shiftRight_eq_div_pow]
  omega

/-- Bit 11 of `(t <<< 11) ||| c` is `t`, for a toggle value `t ≤ 1` and an
11-bit command `c`. -/
theorem bit11_lor (t c : Nat) (ht : t ≤ 1) (hc : c < 2048) :
    (((t <<< 11) ||| c) >>> 11) &&& 1 = t := by
  have hx : ∀ y : Nat, (y >>> 11) &&& 1 = (y.testBit 11).toNat := by
    intro y
    rw [show (1:Nat) = 2^0 by norm_num, Nat.and_two_pow]
    simp [Nat.testBit_shiftRight]
  have hcb : c.testBit 11 = false :=
    Nat.testBit_lt_two_pow (by norm_num at hc ⊢; omega)
  interval_cases t
  · simpa [hx, Nat.testBit_or] using hcb
  · have h2048 : Nat.testBit 2048 11 = true := by decide
    simp [hx, Nat.testBit_or, h2048]

/-- Alternation of the emitted toggle bits, generalized over the starting
toggle value `t` of the channel. -/
theorem runToggles_bits (ch : Nat) :
    ∀ (cmds : List Nat) (st : List Nat) (t : Nat),
      st.length = 4 → st.getD ch 0 = t → t ≤ 1 →
      (∀ c ∈ cmds, channelOf c = ch ∧ c < 2048) →
      (runToggles st cmds).2.map (fun r => (r >>> 11) &&& 1) =
        (List.range cmds.length).map (fun n => (n + 1 - t) % 2) := by
  intro cmds
  induction cmds with
  | nil => intro st t _ _ _ _; simp [runToggles]
  | cons c rest ih =>
    intro st t hlen hget ht hcmds
    obtain ⟨hc_ch, hc_lt⟩ := hcmds c (by simp)
    have hchlt : ch < st.length := by rw [hlen]; rw [← hc_ch]; exact channelOf_lt c
    simp only [runToggles, addToggle, hc_ch, hget, List.map_cons]
    have hrec := ih (st.set ch (1 - t)) (1 - t)
      (by rw [List.length_set, hlen])
      (by simp [List.getD, List.getElem?_set, hchlt])
      (by omega)
      (fun c' hc' => hcmds c' (by simp [hc']))
    rw [hrec, bit11_lor (1 - t) c (by omega) hc_lt]
    rw [List.length_cons, List.range_succ_eq_map, List.map_cons, List.map_map]
    congr 1
    · omega
    · apply List.map_congr_left
      intro n _
      simp only [Function.comp_apply, Nat.succ_eq_add_one]
      omega

/-- C3 counterexample: with the initial state `toggleByChannel = [1,1,1,1]`,
the very first command transmitted on channel 0 (here the raw single-output
command `0b1000111`) carries toggle bit 0, not 1, because `addToggle` flips
the stored bit before using it. -/
theorem first_toggle_bit_zero :
    ((addToggle initToggles 0b1000111).2 >>> 11) &&& 1 = 0 ∧
    (addToggle initToggles 0b1000111).2.testBit 11 = false := by
  constructor <;> decide

/-- C3 (amended): for every fixed channel, the toggle-bit values placed
into bit 11 of successive commands by `addToggle` alternate strictly
between 0 and 1 starting from 0: the n-th command transmitted for a
channel after power-on carries toggle bit `n % 2` (0-indexed), so the
first carries 0. -/
theorem toggle_alternation (ch : Nat) (hch : ch < 4) (cmds : List Nat)
    (hcmds : ∀ c ∈ cmds, channelOf c = ch ∧ c < 2048) :
    (runToggles initToggles cmds).2.map (fun r => (r >>> 11) &&& 1) =
      (List.range cmds.length).map (fun n => n % 2) := by
  have h1 : initToggles.getD ch 0 = 1 := by
    interval_cases ch <;> decide
  have := runToggles_bits ch cmds initToggles 1 (by decide) h1 (by norm_num) hcmds
  rw [this]
  apply List.map_congr_left
  intro n _
  omega

/-- Witness for C3 (amended): three submissions of the raw command
`0b1000111` on channel 0 emit toggle bits 0, 1, 0. -/
theorem toggle_alternation_witness :
    (0 : Nat) < 4 ∧
    (∀ c ∈ [0b1000111, 0b1000111, 0b1000111], channelOf c = 0 ∧ c < 2048) ∧
    (runToggles initToggles [0b1000111, 0b1000111, 0b1000111]).2.map
        (fun r => (r >>> 11) &&& 1) =
      (List.range ([0b1000111, 0b1000111, 0b1000111] : List Nat).length).map
        (fun n => n % 2) :=
  ⟨by decide, by decide,
    toggle_alternation 0 (by decide) [0b1000111, 0b1000111, 0b1000111] (by decide)⟩

/-! ## Generic facts about `(v <<< n) ||| l` for `l < 2^n` -/

/-- Low `n` bits of `(v <<< n) ||| l` are `l` when `l < 2^n`. -/
theorem lor_mod_pow (v l n : Nat) (h : l < 2^n) : ((v <<< n) ||| l) % 2^n = l := by
  rw [← Nat.and_pow_two_sub_one_eq_mod]
  apply Nat.eq_of_testBit_eq
  intro i
  simp only [Nat.testBit_and, Nat.testBit_or, Nat.testBit_shiftLeft,
    Nat.testBit_two_pow_sub_one]
  rcases Nat.lt_or_ge i n with hi | hi
  · simp [hi, Nat.not_le.mpr hi]
  · have hlb : l.testBit i = false :=
      Nat.testBit_lt_two_pow (lt_of_lt_of_le h (Nat.pow_le_pow_right (by norm_num) hi))
    simp [hlb, Nat.not_lt.mpr hi]

/-- High bits of `(v <<< n) ||| l` are `v` when `l < 2^n`. -/
theorem lor_shiftRight_pow (v l n : Nat) (h : l < 2^n) : ((v <<< n) ||| l) >>> n = v := by
  apply Nat.eq_of_testBit_eq
  intro i
  simp only [Nat.testBit_shiftRight, Nat.testBit_or, Nat.testBit_shiftLeft]
  have hlb : l.testBit (n + i) = false :=
    Nat.testBit_lt_two_pow (lt_of_lt_of_le h (Nat.pow_le_pow_right (by norm_num) (by omega)))
  simp [hlb, show n + i ≥ n by omega]

/-- `(v <<< n) ||| l = v * 2^n + l` when `l < 2^n` (disjoint bit ranges). -/
theorem lorShiftLeft_eq_add (v l n : Nat) (h : l < 2^n) : (v <<< n) ||| l = v * 2^n + l := by
  have hx := Nat.div_add_mod ((v <<< n) ||| l) (2^n)
  rw [← Nat.shiftRight_eq_div_pow] at hx
  rw [lor_mod_pow v l n h, lor_shiftRight_pow v l n h, Nat.mul_comm (2^n) v] at hx
  omega

/-! ## Single output mode (`singleOutputMode`) -/

/-- Opcode `IncrementPWM = 0b1100100` (src/main.ts line 61). -/
def PfSingleOutput.IncrementPWM : Nat := 0b1100100

/-- Opcode `DecrementPWM = 0b1100101` (line 63). -/
def PfSingleOutput.DecrementPWM : Nat := 0b1100101

/-- Opcode `IncrementNumericalPWM = 0b1100010` (line 80). -/
def PfSingleOutput.IncrementNumericalPWM : Nat := 0b1100010

/-- Opcode `DecrementNumericalPWM = 0b1100011` (line 82). -/
def PfSingleOutput.DecrementNumericalPWM : Nat := 0b1100011

/-- From `singleOutputMode` (lines 345-354): the raw command and the mixing
flag passed to `sendPacket`.  `mixDatagrams` starts `true` and is cleared
exactly when the opcode is in `[0b1100100, 0b1100101]`. -/
def singleOutputMode (channel output command : Nat) : Nat × Bool :=
  let mixDatagrams :=
    if [0b1100100, 0b1100101].any (fun x => x == command) then false else true
  ((channel <<< 8) ||| command ||| (output <<< 4), mixDatagrams)

/-- C4 counterexample: the two *numerical* increment/decrement opcodes
(`0b1100010`, `0b1100011`) are submitted with mixing *enabled*, refuting
the claim that exactly these two are FIFO. -/
theorem numericalPWM_is_mixed :
    (singleOutputMode 0 0 PfSingleOutput.IncrementNumericalPWM).2 = true ∧
    (singleOutputMode 0 0 PfSingleOutput.DecrementNumericalPWM).2 = true := by
  constructor <;> decide

/-- C4 (amended): for every call `singleOutputMode(channel, output,
opcode)`, exactly the two PWM increment/decrement opcodes
`IncrementPWM = 0b1100100` and `DecrementPWM = 0b1100101` are submitted
with mixing disabled (FIFO); every other opcode is submitted with mixing
enabled. -/
theorem singleOutputMode_mixing (channel output command : Nat) :
    (singleOutputMode channel output command).2 = false ↔
      (command = PfSingleOutput.IncrementPWM ∨
       command = PfSingleOutput.DecrementPWM) := by
  simp only [singleOutputMode, PfSingleOutput.IncrementPWM, PfSingleOutput.DecrementPWM,
    List.any_cons, List.any_nil, Bool.or_false, Bool.or_eq_true, beq_iff_eq]
  split <;> rename_i h
  · simpa using Or.imp Eq.symm Eq.symm h
  · simp only [not_or] at h
    constructor
    · intro hc; exact absurd hc (by simp)
    · intro hc
      rcases hc with hc | hc <;> exact absurd hc.symm (by tauto)

/-! ## Combo modes and the auto-repeat manager (`repeatCommand`,
`comboDirectMode`, `comboPWMMode`) -/

/-- Observable outcome of one combo-mode call as mediated by
`repeatCommand` (lines 304-317): any prior repeat timer of the channel is
cancelled, one packet with `datagram` is submitted immediately (with
`sendPacket`'s default `mixDatagrams = false`), and `timer` records
whether a new recurring timer re-submitting `datagram` is started. -/
structure ComboCall where
  datagram : Nat
  timer : Bool
deriving DecidableEq, Repr

/-- From `repeatCommand`: the recurring timer is started iff `command` is
not in the mode's `excluded` list. -/
def repeatCommandTimer (command : Nat) (excluded : List Nat) : Bool :=
  !(excluded.any fun x => x == command)

/-- From `comboDirectMode` (lines 367-372): `command = (blue << 2) | red`,
`datagram = (channel << 8) | 0b00010000 | command`, excluded list `[0, 15]`. -/
def comboDirectMode (channel red blue : Nat) : ComboCall :=
  let command := (blue <<< 2) ||| red
  let datagram := (channel <<< 8) ||| 0b00010000 ||| command
  ⟨datagram, repeatCommandTimer command [0, 15]⟩

/-- From `comboPWMMode` (lines 385-390): `command = (blue << 4) | red`,
`datagram = ((0b0100 | channel) << 8) | command`, excluded list `[0, 136]`. -/
def comboPWMMode (channel red blue : Nat) : ComboCall :=
  let command := (blue <<< 4) ||| red
  let datagram := ((0b0100 ||| channel) <<< 8) ||| command
  ⟨datagram, repeatCommandTimer command [0, 136]⟩

/-- C5 counterexample: `comboDirectMode(0, BrakeThenFloat, BrakeThenFloat)`
(combined command 15) and `comboPWMMode(0, BrakeThenFloat, BrakeThenFloat)`
(combined command 136) do not start a recurring timer either, refuting the
claim that every red/blue combination other than `(Float, Float)` starts
one. -/
theorem brakeThenFloat_suppresses_repeat :
    (comboDirectMode 0 3 3).timer = false ∧
    (comboPWMMode 0 8 8).timer = false := by
  constructor <;> decide

/-- C5 (amended): a combo call suppresses the recurring auto-repeat timer
exactly for the neutral command values — `(Float, Float)` (combined
command 0) or `(BrakeThenFloat, BrakeThenFloat)` (combined command 15 for
direct mode, 136 for PWM mode); every other red/blue combination starts a
timer after cancelling any prior timer for the channel and submitting one
immediate packet. -/
theorem combo_timer_condition (ch red blue redP blueP : Nat)
    (h1 : red < 4) (h2 : blue < 4) (h3 : redP < 16) (h4 : blueP < 16) :
    ((comboDirectMode ch red blue).timer = false ↔
      ((red = 0 ∧ blue = 0) ∨ (red = 3 ∧ blue = 3))) ∧
    ((comboPWMMode ch redP blueP).timer = false ↔
      ((redP = 0 ∧ blueP = 0) ∨ (redP = 8 ∧ blueP = 8))) := by
  have hd : (blue <<< 2) ||| red = blue * 4 + red :=
    lorShiftLeft_eq_add blue red 2 (by norm_num; omega)
  have hp : (blueP <<< 4) ||| redP = blueP * 16 + redP :=
    lorShiftLeft_eq_add blueP redP 4 (by norm_num; omega)
  constructor
  · simp only [comboDirectMode, repeatCommandTimer, hd, List.any_cons, List.any_nil,
      Bool.or_false, Bool.not_eq_false', Bool.or_eq_true, beq_iff_eq]
    omega
  · simp only [comboPWMMode, repeatCommandTimer, hp, List.any_cons, List.any_nil,
      Bool.or_false, Bool.not_eq_false', Bool.or_eq_true, beq_iff_eq]
    omega

/-- Witness for C5 (amended) at `ch = 1`, direct `(red, blue) = (1, 0)`
(forward on red: timer starts), PWM `(redP, blueP) = (0, 8)` (mixed
neutral/brake combination: timer starts). -/
theorem combo_timer_condition_witness :
    (1 : Nat) < 4 ∧ (0 : Nat) < 4 ∧ (0 : Nat) < 16 ∧ (8 : Nat) < 16 ∧
    (((comboDirectMode 1 1 0).timer = false ↔
      (((1:Nat) = 0 ∧ (0:Nat) = 0) ∨ ((1:Nat) = 3 ∧ (0:Nat) = 3))) ∧
    ((comboPWMMode 1 0 8).timer = false ↔
      (((0:Nat) = 0 ∧ (8:Nat) = 0) ∨ ((0:Nat) = 8 ∧ (8:Nat) = 8)))) :=
  ⟨by decide, by decide, by decide, by decide,
    combo_timer_condition 1 1 0 0 8 (by decide) (by decide) (by decide) (by decide)⟩

/-! ## Packet submission (`sendPacket`) -/

/-- Scheduler task (interface `task`, lines 233-236): the handler closure
captures the final toggled command that `irLed.sendCommand` will transmit;
`type` is the conflict-detection tag. -/
structure Task where
  command : Nat
  type : Nat
deriving DecidableEq, Repr

/-- The module state touched by `sendPacket`: `toggleByChannel`, `tasks`
and `schedulerIsWorking`. -/
structure SchedState where
  toggleByChannel : List Nat
  tasks : List Task
  schedulerIsWorking : Bool
deriving Repr

/-- From `sendPacket` (lines 251-271), the effect of one submission on the
module state at its enqueue point: derive `taskType = 0b001100110000 &
command`, apply `addToggle` once, push `signalRepeatNumber` tasks whose
handlers all transmit that single toggled command, and ensure
`schedulerIsWorking` (the worker is spawned if it was not running).  The
cooperative wait of the mixing branch and the worker loop itself are
modelled by the step relations below. -/
def sendPacket (st : SchedState) (command : Nat) (signalRepeatNumber : Nat) :
    SchedState :=
  let taskType := 0b001100110000 &&& command
  let p := addToggle st.toggleByChannel command
  { toggleByChannel := p.1
    tasks := st.tasks ++ List.replicate signalRepeatNumber ⟨p.2, taskType⟩
    schedulerIsWorking := true }

/-- C6: one `sendPacket` submission applies the toggle flip exactly once
(the channel's stored bit is flipped once and every enqueued handler
carries the single value produced by one `addToggle` application) and
appends exactly `signalRepeatNumber` tasks, all transmitting the same
final raw value with the same toggle bit and carrying the command's task
type. -/
theorem sendPacket_repeat_invariance (st : SchedState) (c n : Nat)
    (hlen : st.toggleByChannel.length = 4) :
    ((sendPacket st c n).tasks.length = st.tasks.length + n) ∧
    ((sendPacket st c n).tasks.take st.tasks.length = st.tasks) ∧
    (∀ t ∈ (sendPacket st c n).tasks.drop st.tasks.length,
      t.command = (addToggle st.toggleByChannel c).2 ∧
      t.type = 0b001100110000 &&& c) ∧
    ((sendPacket st c n).toggleByChannel.getD (channelOf c) 0 =
      1 - st.toggleByChannel.getD (channelOf c) 0) ∧
    (∀ ch', ch' ≠ channelOf c →
      (sendPacket st c n).toggleByChannel.getD ch' 0 =
        st.toggleByChannel.getD ch' 0) := by
  have hch : channelOf c < st.toggleByChannel.length := by
    rw [hlen]; exact channelOf_lt c
  refine ⟨?_, ?_, ?_, ?_, ?_⟩
  · simp [sendPacket]
  · simp [sendPacket, List.take_left]
  · intro t ht
    simp only [sendPacket, List.drop_left] at ht
    have := List.eq_of_mem_replicate ht
    subst this
    exact ⟨rfl, rfl⟩
  · simp [sendPacket, addToggle, List.getD, List.getElem?_set, hch]
  · intro ch' hne
    simp [sendPacket, addToggle, List.getD, List.getElem?_set, Ne.symm hne]

/-- Witness for C6: a concrete state with two queued tasks, submitting the
raw command `0b1000111` with the default repeat count 5. -/
theorem sendPacket_repeat_invariance_witness :
    (([1, 0, 1, 1] : List Nat).length = 4) ∧
    (((sendPacket ⟨[1, 0, 1, 1], [⟨7, 0⟩, ⟨8, 16⟩], true⟩ 0b1000111 5).tasks.length =
      ([⟨7, 0⟩, ⟨8, 16⟩] : List Task).length + 5) ∧
    ((sendPacket ⟨[1, 0, 1, 1], [⟨7, 0⟩, ⟨8, 16⟩], true⟩ 0b1000111 5).tasks.take
        ([⟨7, 0⟩, ⟨8, 16⟩] : List Task).length = [⟨7, 0⟩, ⟨8, 16⟩]) ∧
    (∀ t ∈ (sendPacket ⟨[1, 0, 1, 1], [⟨7, 0⟩, ⟨8, 16⟩], true⟩ 0b1000111 5).tasks.drop
        ([⟨7, 0⟩, ⟨8, 16⟩] : List Task).length,
      t.command = (addToggle [1, 0, 1, 1] 0b1000111).2 ∧
      t.type = 0b001100110000 &&& 0b1000111) ∧
    ((sendPacket ⟨[1, 0, 1, 1], [⟨7, 0⟩, ⟨8, 16⟩], true⟩ 0b1000111 5).toggleByChannel.getD
        (channelOf 0b1000111) 0 =
      1 - ([1, 0, 1, 1] : List Nat).getD (channelOf 0b1000111) 0) ∧
    (∀ ch', ch' ≠ channelOf 0b1000111 →
      (sendPacket ⟨[1, 0, 1, 1], [⟨7, 0⟩, ⟨8, 16⟩], true⟩ 0b1000111 5).toggleByChannel.getD
          ch' 0 =
        ([1, 0, 1, 1] : List Nat).getD ch' 0)) :=
  ⟨by decide,
    sendPacket_repeat_invariance ⟨[1, 0, 1, 1], [⟨7, 0⟩, ⟨8, 16⟩], true⟩ 0b1000111 5 (by decide)⟩

/-! ## Auto-repeat resubmission and the toggle bit (C9) -/

/-- `channelOf` reads exactly bits 8-9. -/
theorem channelOf_eq (d : Nat) : channelOf d = (d >>> 8) &&& 3 := by
  apply Nat.eq_of_testBit_eq
  intro i
  simp only [channelOf, Nat.testBit_shiftRight, Nat.testBit_and]
  rcases Nat.lt_or_ge i 2 with hi | hi
  · have h768 : (768 : Nat).testBit (8 + i) = true := by
      interval_cases i <;> decide
    have h3 : (3 : Nat).testBit i = true := by
      interval_cases i <;> decide
    simp [h768, h3, Bool.and_comm]
  · have h768 : (768 : Nat).testBit (8 + i) = false :=
      Nat.testBit_lt_two_pow (by calc (768:Nat) < 2^10 := by norm_num
                                    _ ≤ 2^(8+i) := Nat.pow_le_pow_right (by norm_num) (by omega))
    have h3 : (3 : Nat).testBit i = false :=
      Nat.testBit_lt_two_pow (by calc (3:Nat) < 2^2 := by norm_num
                                    _ ≤ 2^i := Nat.pow_le_pow_right (by norm_num) hi)
    simp [h768, h3]

/-- For a channel-carrying value `d = c * 256 + r` with `c < 4`, `r < 256`,
`addToggle` extracts channel `c`. -/
theorem channelOf_mul_add (c r : Nat) (hc : c < 4) (hr : r < 256) :
    channelOf (c * 256 + r) = c := by
  rw [channelOf_eq, Nat.shiftRight_eq_div_pow]
  have hd : (c * 256 + r) / 2^8 = c := by
    norm_num
    rw [Nat.mul_comm c 256, Nat.mul_add_div (by norm_num)]
    omega
  rw [hd, Nat.and_pow_two_sub_one_eq_mod c 2]
  omega

/-- The combo-direct datagram in closed arithmetic form, its 11-bit bound
and its channel field. -/
theorem comboDirect_datagram (ch red blue : Nat)
    (hch : ch < 4) (h1 : red < 4) (h2 : blue < 4) :
    (comboDirectMode ch red blue).datagram = ch * 256 + (16 + (blue * 4 + red)) ∧
    (comboDirectMode ch red blue).datagram < 2048 ∧
    channelOf (comboDirectMode ch red blue).datagram = ch := by
  have hcmd : (blue <<< 2) ||| red = blue * 4 + red :=
    lorShiftLeft_eq_add blue red 2 (by norm_num; omega)
  have h16 : (16 : Nat) ||| (blue * 4 + red) = 16 + (blue * 4 + red) := by
    have := lorShiftLeft_eq_add 1 (blue * 4 + red) 4 (by norm_num; omega)
    simpa using this
  have hdg : (comboDirectMode ch red blue).datagram = ch * 256 + (16 + (blue * 4 + red)) := by
    simp only [comboDirectMode, hcmd]
    rw [Nat.lor_assoc, h16]
    have := lorShiftLeft_eq_add ch (16 + (blue * 4 + red)) 8 (by norm_num; omega)
    simpa using this
  refine ⟨hdg, by rw [hdg]; omega, ?_⟩
  rw [hdg]
  exact channelOf_mul_add ch _ hch (by omega)

/-- The combo-PWM datagram in closed arithmetic form, its 11-bit bound and
its channel field. -/
theorem comboPWM_datagram (ch red blue : Nat)
    (hch : ch < 4) (h1 : red < 16) (h2 : blue < 16) :
    (comboPWMMode ch red blue).datagram = (4 + ch) * 256 + (blue * 16 + red) ∧
    (comboPWMMode ch red blue).datagram < 2048 ∧
    channelOf (comboPWMMode ch red blue).datagram = ch := by
  have hcmd : (blue <<< 4) ||| red = blue * 16 + red :=
    lorShiftLeft_eq_add blue red 4 (by norm_num; omega)
  have h4 : (4 : Nat) ||| ch = 4 + ch := by
    have := lorShiftLeft_eq_add 1 ch 2 (by norm_num; omega)
    simpa using this
  have hdg : (comboPWMMode ch red blue).datagram = (4 + ch) * 256 + (blue * 16 + red) := by
    simp only [comboPWMMode, hcmd, h4]
    have := lorShiftLeft_eq_add (4 + ch) (blue * 16 + red) 8 (by norm_num; omega)
    simpa using this
  refine ⟨hdg, by rw [hdg]; omega, ?_⟩
  rw [hdg, channelOf_eq, Nat.shiftRight_eq_div_pow]
  have hd : ((4 + ch) * 256 + (blue * 16 + red)) / 2^8 = 4 + ch := by
    norm_num
    rw [Nat.mul_comm (4 + ch) 256, Nat.mul_add_div (by norm_num)]
    omega
  rw [hd, Nat.and_pow_two_sub_one_eq_mod (4 + ch) 2]
  omega

/-- Two successive `addToggle` applications with the same 11-bit command on
the same channel produce raw values whose bit 11 differs. -/
theorem addToggle_twice_bit11 (st : List Nat) (d : Nat)
    (hlt : channelOf d < st.length) (hd : d < 2048)
    (ht : st.getD (channelOf d) 0 ≤ 1) :
    ((addToggle st d).2 >>> 11) &&& 1 ≠
      ((addToggle (addToggle st d).1 d).2 >>> 11) &&& 1 := by
  set t := st.getD (channelOf d) 0 with hts
  have hset : ∀ x : Nat, (st.set (channelOf d) x).getD (channelOf d) 0 = x := by
    intro x
    simp [List.getD, List.getElem?_set, hlt]
  have h1 : (addToggle st d).2 = ((1 - t) <<< 11) ||| d := by
    simp only [addToggle, ← hts]
  have h2 : (addToggle (addToggle st d).1 d).2 = ((1 - (1 - t)) <<< 11) ||| d := by
    simp only [addToggle, hset, ← hts]
  rw [h1, h2, bit11_lor (1 - t) d (by omega) hd,
    bit11_lor (1 - (1 - t)) d (by omega) hd]
  omega

/-- C9: the auto-repeat timer re-enters `sendPacket` with the same
pre-toggle datagram, and `addToggle` flips the channel's bit again on each
entry; hence, with no intervening commands on the channel, any two
consecutive submissions of the same combo datagram (initial submission and
first timer firing, or two successive firings) transmit raw values whose
bit 11 (toggle) differs — for both combo-direct and combo-PWM datagrams. -/
theorem repeat_resubmission_flips_toggle (st : List Nat)
    (ch red blue redP blueP : Nat) (hlen : st.length = 4) (hch : ch < 4)
    (h1 : red < 4) (h2 : blue < 4) (h3 : redP < 16) (h4 : blueP < 16)
    (ht : st.getD ch 0 ≤ 1) :
    (((addToggle st (comboDirectMode ch red blue).datagram).2 >>> 11) &&& 1 ≠
      ((addToggle (addToggle st (comboDirectMode ch red blue).datagram).1
          (comboDirectMode ch red blue).datagram).2 >>> 11) &&& 1) ∧
    (((addToggle st (comboPWMMode ch redP blueP).datagram).2 >>> 11) &&& 1 ≠
      ((addToggle (addToggle st (comboPWMMode ch redP blueP).datagram).1
          (comboPWMMode ch redP blueP).datagram).2 >>> 11) &&& 1) := by
  obtain ⟨-, hdlt, hdch⟩ := comboDirect_datagram ch red blue hch h1 h2
  obtain ⟨-, hplt, hpch⟩ := comboPWM_datagram ch redP blueP hch h3 h4
  constructor
  · exact addToggle_twice_bit11 st _ (by rw [hdch, hlen]; exact hch) hdlt (by rw [hdch]; exact ht)
  · exact addToggle_twice_bit11 st _ (by rw [hpch, hlen]; exact hch) hplt (by rw [hpch]; exact ht)

/-- Witness for C9 at channel 2, direct `(red, blue) = (1, 2)`, PWM
`(redP, blueP) = (7, 9)`, starting from the power-on toggle state. -/
theorem repeat_resubmission_flips_toggle_witness :
    (([1, 1, 1, 1] : List Nat).length = 4) ∧ (2 : Nat) < 4 ∧
    (1 : Nat) < 4 ∧ (2 : Nat) < 4 ∧ (7 : Nat) < 16 ∧ (9 : Nat) < 16 ∧
    (([1, 1, 1, 1] : List Nat).getD 2 0 ≤ 1) ∧
    ((((addToggle [1, 1, 1, 1] (comboDirectMode 2 1 2).datagram).2 >>> 11) &&& 1 ≠
      ((addToggle (addToggle [1, 1, 1, 1] (comboDirectMode 2 1 2).datagram).1
          (comboDirectMode 2 1 2).datagram).2 >>> 11) &&& 1) ∧
    (((addToggle [1, 1, 1, 1] (comboPWMMode 2 7 9).datagram).2 >>> 11) &&& 1 ≠
      ((addToggle (addToggle [1, 1, 1, 1] (comboPWMMode 2 7 9).datagram).1
          (comboPWMMode 2 7 9).datagram).2 >>> 11) &&& 1)) :=
  ⟨by decide, by decide, by decide, by decide, by decide, by decide, by decide,
    repeat_resubmission_flips_toggle [1, 1, 1, 1] 2 1 2 7 9
      (by decide) (by decide) (by decide) (by decide) (by decide) (by decide) (by decide)⟩

/-! ## Conflict serialization under mixing (C7)

`sendPacket`'s mixing branch waits in
`while (tasks.filter(x => x.type == taskType).length > 0) basic.pause(20)`
and, once the filter comes back empty, pushes its tasks with no further
yield.  The cooperative scheduling is modelled as a step relation whose
atomic steps are the code segments between yield points. -/

/-- A call of `sendPacket` that has not yet pushed its tasks: its task
tag `0b001100110000 & command`, whether mixing was requested, the repeat
count, and an identity distinguishing different submissions. -/
structure Submission where
  tag : Nat
  mixed : Bool
  cnt : Nat
  sid : Nat
deriving DecidableEq, Repr

/-- A queued task, recording the tag, the mixing flag and the identity of
the submission that enqueued it. -/
structure QTask where
  tag : Nat
  mixed : Bool
  sid : Nat
deriving DecidableEq, Repr

/-- Scheduler system state at yield-point granularity: the task queue and
the submissions currently inside `sendPacket`. -/
structure SchedSys where
  queue : List QTask
  pending : List Submission
deriving Repr

/-- Cooperative steps of `sendPacket` and the background worker
(lines 251-301):
* `arrive`: a new `sendPacket` call begins (tasks not yet pushed);
* `push`: a pending submission pushes its `cnt` tasks in one atomic
  segment; a mixed submission can do so only when no queued task carries
  its tag (the exit condition of the cooperative wait loop, checked in the
  same segment as the pushes), a non-mixed submission unconditionally;
* `work`: the background worker executes and splices out one queued task.
-/
inductive SchedStep : SchedSys → SchedSys → Prop
  | arrive (s : SchedSys) (sub : Submission) :
      SchedStep s ⟨s.queue, s.pending ++ [sub]⟩
  | push (s : SchedSys) (sub : Submission) (hmem : sub ∈ s.pending)
      (hwait : sub.mixed = true → ∀ t ∈ s.queue, t.tag ≠ sub.tag) :
      SchedStep s
        ⟨s.queue ++ List.replicate sub.cnt ⟨sub.tag, sub.mixed, sub.sid⟩,
         s.pending.erase sub⟩
  | work (s : SchedSys) (i : Nat) (hi : i < s.queue.length) :
      SchedStep s ⟨s.queue.eraseIdx i, s.pending⟩

/-- No two queued tasks stemming from *different* mixed submissions share
a tag: tasks of two same-tag mixed commands are never simultaneously in
the queue. -/
def MixSerialized (q : List QTask) : Prop :=
  ∀ t1 ∈ q, ∀ t2 ∈ q,
    t1.mixed = true → t2.mixed = true → t1.tag = t2.tag → t1.sid = t2.sid

/-- One cooperative step preserves `MixSerialized`. -/
theorem schedStep_preserves (s s' : SchedSys) (h : SchedStep s s')
    (hs : MixSerialized s.queue) : MixSerialized s'.queue := by
  cases h with
  | arrive sub => exact hs
  | push sub hmem hwait =>
    intro t1 ht1 t2 ht2 hm1 hm2 htag
    simp only [List.mem_append] at ht1 ht2
    rcases ht1 with ht1 | ht1 <;> rcases ht2 with ht2 | ht2
    · exact hs t1 ht1 t2 ht2 hm1 hm2 htag
    · obtain ⟨-, rfl⟩ := List.mem_replicate.mp ht2
      exact absurd htag (hwait hm2 t1 ht1)
    · obtain ⟨-, rfl⟩ := List.mem_replicate.mp ht1
      exact absurd htag.symm (hwait hm1 t2 ht2)
    · obtain ⟨-, rfl⟩ := List.mem_replicate.mp ht1
      obtain ⟨-, rfl⟩ := List.mem_replicate.mp ht2
      rfl
  | work i hi =>
    intro t1 ht1 t2 ht2
    exact hs t1 (List.mem_of_mem_eraseIdx ht1) t2 (List.mem_of_mem_eraseIdx ht2)

/-- C7: starting from a power-on state with an empty task queue, in every
reachable scheduler state the tasks of two distinct mixed submissions with
the same `typeTag` are never simultaneously present in the queue — a
second same-tag mixed submission pushes only after the first's tasks have
fully drained. -/
theorem conflict_serialization (init s : SchedSys) (hq : init.queue = [])
    (hreach : Relation.ReflTransGen SchedStep init s) :
    MixSerialized s.queue := by
  induction hreach with
  | refl => rw [hq]; intro t1 ht1; exact absurd ht1 (List.not_mem_nil t1)
  | tail _ hstep ih => exact schedStep_preserves _ _ hstep ih

/-- Witness for C7: from the empty system, one mixed submission with tag
48 arrives and pushes its five tasks; the resulting queue satisfies
`MixSerialized`. -/
theorem conflict_serialization_witness :
    (SchedSys.mk [] []).queue = [] ∧
    Relation.ReflTransGen SchedStep ⟨[], []⟩
      ⟨List.replicate 5 (⟨48, true, 0⟩ : QTask), []⟩ ∧
    MixSerialized (List.replicate 5 (⟨48, true, 0⟩ : QTask)) := by
  have h1 : SchedStep ⟨[], []⟩ ⟨[], [(⟨48, true, 5, 0⟩ : Submission)]⟩ := by
    have hstep := SchedStep.arrive (⟨[], []⟩ : SchedSys) (⟨48, true, 5, 0⟩ : Submission)
    simpa using hstep
  have h2 : SchedStep ⟨[], [(⟨48, true, 5, 0⟩ : Submission)]⟩
      ⟨List.replicate 5 (⟨48, true, 0⟩ : QTask), []⟩ := by
    have hstep := SchedStep.push (⟨[], [(⟨48, true, 5, 0⟩ : Submission)]⟩ : SchedSys)
      (⟨48, true, 5, 0⟩ : Submission)
      (by simp) (by intro _ t ht; exact absurd ht (List.not_mem_nil t))
    simpa using hstep
  have hreach : Relation.ReflTransGen SchedStep ⟨[], []⟩
      ⟨List.replicate 5 (⟨48, true, 0⟩ : QTask), []⟩ :=
    Relation.ReflTransGen.tail (Relation.ReflTransGen.tail Relation.ReflTransGen.refl h1) h2
  exact ⟨rfl, hreach, conflict_serialization ⟨[], []⟩ _ rfl hreach⟩

/-! ## The background worker and its captured mixing flag (C10) -/

/-- From `getRandomInt` (lines 238-242): at the worker's call site both
arguments are integers, so `Math.ceil(min)` and `Math.floor(max)` are the
identity; the result is `Math.floor(r * (max - min + 1)) + min` for the
`Math.random()` draw `r ∈ [0, 1)`, modelled as a rational. -/
def getRandomInt (min max : Int) (r : ℚ) : Int :=
  ⌊r * ((max : ℚ) - (min : ℚ) + 1)⌋ + min

/-- The index chosen by one iteration of the background worker loop
(lines 287-293) for a worker whose closure captured `mixDatagrams = mix`
when `sendPacket` spawned it: `let i = 0; if (mixDatagrams) i =
getRandomInt(0, tasks.length - 1)`. -/
def workerPickIndex (mix : Bool) (len : Nat) (r : ℚ) : Int :=
  if mix then getRandomInt 0 ((len : Int) - 1) r else 0

/-- A queued task as seen by the worker: the captured command of its
handler, together with the mixing flag of the submission that enqueued it
— recorded here only to state that the worker never consults it. -/
structure WTask where
  command : Nat
  mixFlag : Bool
deriving DecidableEq, Repr

/-- The worker loop (lines 284-300): while tasks remain, pick an index
with the captured flag `mix`, execute `tasks[i].handler()` (observed as
its command), and `tasks.splice(i, 1)`.  `rs` supplies the successive
`Math.random()` draws; recursion is on the fuel, which callers set to the
queue length. -/
def drain (mix : Bool) : Nat → List WTask → (Nat → ℚ) → List Nat
  | 0, _, _ => []
  | _ + 1, [], _ => []
  | fuel + 1, a :: as, rs =>
      let q := a :: as
      let i := (workerPickIndex mix q.length (rs 0)).toNat
      (q.getD i ⟨0, false⟩).command ::
        drain mix fuel (q.eraseIdx i) (fun n => rs (n + 1))

/-- `List.map` commutes with `List.eraseIdx`. -/
theorem map_eraseIdx {α β : Type} (f : α → β) :
    ∀ (q : List α) (i : Nat), (q.eraseIdx i).map f = (q.map f).eraseIdx i := by
  intro q
  induction q with
  | nil => intro i; simp
  | cons a as ih =>
    intro i
    cases i with
    | zero => simp [List.eraseIdx]
    | succ j => simp [List.eraseIdx, ih j]

/-- `List.getD` after `List.map`. -/
theorem getD_map {α β : Type} (f : α → β) (q : List α) (i : Nat) (d : α) :
    (q.map f).getD i (f d) = f (q.getD i d) := by
  simp only [List.getD_eq_getElem?_getD, List.getElem?_map]
  cases q[i]? <;> rfl

/-- The drained command trace depends only on the captured flag, the
random draws and the commands in the queue — never on the per-task mixing
flags. -/
theorem drain_flag_blind (mix : Bool) :
    ∀ (fuel : Nat) (q q' : List WTask) (rs : Nat → ℚ),
      q.map WTask.command = q'.map WTask.command →
      drain mix fuel q rs = drain mix fuel q' rs := by
  intro fuel
  induction fuel with
  | zero => intro q q' rs _; rfl
  | succ f ih =>
    intro q q' rs hmap
    have hlen : q.length = q'.length := by
      have := congrArg List.length hmap
      simpa using this
    cases q with
    | nil =>
      cases q' with
      | nil => rfl
      | cons b bs => exact absurd hlen (by simp)
    | cons a as =>
      cases q' with
      | nil => exact absurd hlen (by simp)
      | cons b bs =>
        simp only [drain]
        have hcmd : ((a :: as).getD ((workerPickIndex mix (a :: as).length (rs 0)).toNat)
            ⟨0, false⟩).command =
            ((b :: bs).getD ((workerPickIndex mix (b :: bs).length (rs 0)).toNat)
            ⟨0, false⟩).command := by
          rw [← getD_map WTask.command (a :: as) _ ⟨0, false⟩,
            ← getD_map WTask.command (b :: bs) _ ⟨0, false⟩, hmap, hlen]
        rw [hcmd, hlen]
        congr 1
        apply ih
        rw [map_eraseIdx, map_eraseIdx, hmap]

/-- With the captured flag `false`, the worker drains strictly in FIFO
order. -/
theorem drain_fifo :
    ∀ (fuel : Nat) (q : List WTask) (rs : Nat → ℚ),
      drain false fuel q rs = (q.map WTask.command).take fuel := by
  intro fuel
  induction fuel with
  | zero => intro q rs; simp [drain]
  | succ f ih =>
    intro q rs
    cases q with
    | nil => simp [drain]
    | cons a as =>
      simp only [drain, workerPickIndex, if_neg (by simp : ¬ false = true)]
      simp [ih, List.eraseIdx]

/-- C10: the background worker spawned by `sendPacket` captures the
`mixDatagrams` flag of the one submission that spawned it and applies that
single flag to every task it drains until the queue empties, regardless
of the mixing flags later submissions attached to the tasks it executes:
the drained trace is independent of the per-task flags; with captured
flag `false` it always executes the task at index 0 (FIFO); with captured
flag `true` every iteration picks `getRandomInt(0, len-1)`, which for a
draw `r ∈ [0, 1)` is the uniformly scaled index `⌊r·len⌋`, always within
the current queue. -/
theorem worker_captured_flag (fuel : Nat) (q q' : List WTask) (rs : Nat → ℚ)
    (len : Nat) (r : ℚ) (hlen : 0 < len) (h0 : 0 ≤ r) (h1 : r < 1) :
    (q.map WTask.command = q'.map WTask.command →
      ∀ mix, drain mix fuel q rs = drain mix fuel q' rs) ∧
    drain false fuel q rs = (q.map WTask.command).take fuel ∧
    workerPickIndex false len r = 0 ∧
    workerPickIndex true len r = ⌊r * (len : ℚ)⌋ ∧
    0 ≤ ⌊r * (len : ℚ)⌋ ∧ ⌊r * (len : ℚ)⌋ < (len : Int) := by
  refine ⟨fun hmap mix => drain_flag_blind mix fuel q q' rs hmap,
    drain_fifo fuel q rs, rfl, ?_, ?_, ?_⟩
  · simp only [workerPickIndex, getRandomInt, if_true]
    have hcast : ((((len : Int) - 1 : Int)) : ℚ) - ((0 : Int) : ℚ) + 1 = (len : ℚ) := by
      push_cast
      ring
    rw [hcast, add_zero]
  · exact Int.floor_nonneg.mpr (by positivity)
  · rw [Int.floor_lt]
    push_cast
    nlinarith [show (0:ℚ) < (len:ℚ) by exact_mod_cast hlen]

/-- Witness for C10: two three-task queues agreeing on commands but with
opposite per-task flags drain identically; the FIFO drain returns the
commands in order; the mixed pick at `r = 1/2` over four tasks is index 2. -/
theorem worker_captured_flag_witness :
    (0 : Nat) < 4 ∧ (0 : ℚ) ≤ 1/2 ∧ (1/2 : ℚ) < 1 ∧
    (([⟨10, true⟩, ⟨11, false⟩, ⟨12, true⟩] : List WTask).map WTask.command =
        ([⟨10, false⟩, ⟨11, true⟩, ⟨12, false⟩] : List WTask).map WTask.command →
      ∀ mix, drain mix 3 [⟨10, true⟩, ⟨11, false⟩, ⟨12, true⟩] (fun _ => 1/2) =
        drain mix 3 [⟨10, false⟩, ⟨11, true⟩, ⟨12, false⟩] (fun _ => 1/2)) ∧
    drain false 3 [⟨10, true⟩, ⟨11, false⟩, ⟨12, true⟩] (fun _ => 1/2) =
      (([⟨10, true⟩, ⟨11, false⟩, ⟨12, true⟩] : List WTask).map WTask.command).take 3 ∧
    workerPickIndex false 4 (1/2) = 0 ∧
    workerPickIndex true 4 (1/2) = ⌊(1/2 : ℚ) * (4 : ℚ)⌋ ∧
    0 ≤ ⌊(1/2 : ℚ) * (4 : ℚ)⌋ ∧ ⌊(1/2 : ℚ) * (4 : ℚ)⌋ < (4 : Int) :=
  ⟨by decide, by norm_num, by norm_num,
    (worker_captured_flag 3 [⟨10, true⟩, ⟨11, false⟩, ⟨12, true⟩]
      [⟨10, false⟩, ⟨11, true⟩, ⟨12, false⟩] (fun _ => 1/2) 4 (1/2)
      (by decide) (by norm_num) (by norm_num)).1,
    (worker_captured_flag 3 [⟨10, true⟩, ⟨11, false⟩, ⟨12, true⟩]
      [⟨10, false⟩, ⟨11, true⟩, ⟨12, false⟩] (fun _ => 1/2) 4 (1/2)
      (by decide) (by norm_num) (by norm_num)).2⟩

end pfTransmitter
